import Mathlib

/-!
Shallow embedding of `geomagnetic_field_inversions/damping_modules/damping.py`.

The three functions of the module — `damp_matrix`, `integrator` and
`damp_norm` — are translated into executable Lean definitions over `ℚ`.
External collaborators that are not part of the source file are passed in as
function parameters:
* `newcot : ℕ → ℚ` abstracts the weight vector returned by
  `scipy.integrate.newton_cotes(nc_order)`;
* `spl : ℤ → ℕ → ℚ` abstracts the sampled B-spline derivative table returned
  by `bsplines.derivatives(t_step, nc_order + 1, ddt)` (row = positional
  offset of the basis piece, column = sample point);
* `damp_diag : ℕ → ℚ` abstracts the per-coefficient weight vector returned by
  `dampingtype(max_degree, damp_type, damp_dipole)`.
-/

/-- Spline degree, fixed at 3 (cubic) throughout the module
(`spl_degree = 3` in all three functions). -/
def spl_degree : ℕ := 3

/-- `nc_order = 2 * (spl_degree - ddt)`: order of the Newton-Cotes rule used
by `integrator` (damping.py line 99).  Computed in `ℤ` because the Python
subtraction is signed: for `ddt > 3` the order is negative. -/
def nc_order (ddt : ℕ) : ℤ := 2 * ((spl_degree : ℤ) - (ddt : ℤ))

/-- `low = int(max(spl1, spl2, spl_degree))` (damping.py line 102). -/
def intLow (spl1 spl2 : ℤ) : ℤ := max (max spl1 spl2) (spl_degree : ℤ)

/-- `high = int(min(spl1 + spl_degree, spl2 + spl_degree, nr_splines - 1))`
(damping.py line 103). -/
def intHigh (spl1 spl2 nr_splines : ℤ) : ℤ :=
  min (min (spl1 + (spl_degree : ℤ)) (spl2 + (spl_degree : ℤ))) (nr_splines - 1)

/-- Embedding of `integrator(spl1, spl2, nr_splines, t_step, ddt)`
(damping.py lines 67-119).  The outer loop `for t in range(low, high + 1)`
becomes a sum over `Finset.Icc low high` (empty when `low > high`), the inner
loop `for stp in range(nc_order + 1)` a sum over
`Finset.range (nc_order + 1).toNat` (empty when `nc_order < 0`), and
`dt = t_step / nc_order`.  `newcot` and `spl` are the external inputs
described in the file header; passing `newcot` as a total function is
faithful only for positive quadrature orders (`ddt ≤ 2`), where
`newton_cotes` returns a weight vector — the failure of the quadrature
setup for non-positive orders is modeled by `integrator_checked` below. -/
def integrator (spl1 spl2 nr_splines : ℤ) (t_step : ℚ) (ddt : ℕ)
    (newcot : ℕ → ℚ) (spl : ℤ → ℕ → ℚ) : ℚ :=
  let dt : ℚ := t_step / ((nc_order ddt : ℤ) : ℚ)
  ∑ t ∈ Finset.Icc (intLow spl1 spl2) (intHigh spl1 spl2 nr_splines),
    (∑ stp ∈ Finset.range (nc_order ddt + 1).toNat,
        newcot stp * spl (t - spl1) stp * spl (t - spl2) stp) * dt

/-- Embedding of `integrator` together with the failure of its quadrature
setup (damping.py lines 100 and 105), which happens before any interval is
accumulated: for a negative order `scipy.integrate.newton_cotes(nc_order)`
raises (its `rn = np.arange(N + 1)` is empty, `N` is not a built-in order,
and indexing `rn[0]` fails), and for the degenerate order 0 even a
returning `newton_cotes` is followed by `dt = t_step / nc_order`, a
division by zero.  `none` models the raised exception (no partial result);
for a positive order the integration proceeds and returns `integrator`. -/
def integrator_checked (spl1 spl2 nr_splines : ℤ) (t_step : ℚ) (ddt : ℕ)
    (newcot : ℕ → ℚ) (spl : ℤ → ℕ → ℚ) : Option ℚ :=
  if nc_order ddt ≤ 0 then none
  else some (integrator spl1 spl2 nr_splines t_step ddt newcot spl)

/-- `nm_total = (max_degree + 1) ** 2 - 1` (damping.py line 48). -/
def nm_total (max_degree : ℕ) : ℕ := (max_degree + 1) ^ 2 - 1

/-- One numpy block assignment
`matrix[s1*nm:(s1+1)*nm, s2*nm:(s2+1)*nm] = v_diag` (damping.py lines 61-63),
where the assigned block is the diagonal matrix with entries `v r`
(`damp_factor * spl_integral * np.diag(damp_diag)`).  Entries outside the
addressed block keep the previous matrix `M`. -/
def write_block (nm s1 s2 : ℕ) (v : ℕ → ℚ) (M : ℕ → ℕ → ℚ) : ℕ → ℕ → ℚ :=
  fun a b =>
    if s1 * nm ≤ a ∧ a < (s1 + 1) * nm ∧ s2 * nm ≤ b ∧ b < (s2 + 1) * nm then
      (if a - s1 * nm = b - s2 * nm then v (a - s1 * nm) else 0)
    else M a b

/-- The index pairs visited by the nested assembly loops of `damp_matrix`
(damping.py lines 54-57): `spl1 in range(nr_splines)` and
`spl2 in range(max(0, spl1 - spl_degree), min(spl1 + spl_degree + 1,
nr_splines))`, flattened in iteration order.  `spl1 - spl_degree` in `ℕ`
is exactly `max(0, spl1 - spl_degree)`. -/
def damp_pairs (nr_splines : ℕ) : List (ℕ × ℕ) :=
  (List.range nr_splines).flatMap (fun spl1 =>
    (List.range' (spl1 - spl_degree)
        (min (spl1 + spl_degree + 1) nr_splines - (spl1 - spl_degree))).map
      (fun spl2 => (spl1, spl2)))

/-- Embedding of `damp_matrix(max_degree, nr_splines, t_step, damp_factor,
damp_type, ddt, damp_dipole)` (damping.py lines 12-64).  The matrix is a total
function on indices (entries outside the allocated
`nm_total * nr_splines` square are never written and stay `0`).  If
`damp_factor == 0` the zero matrix and the empty weight vector are returned;
otherwise the weight vector `damp_diag` is obtained from the external
`dampingtype` (abstracted as the input `damp_diag`, materialized as its first
`nm_total` entries) and each banded block is assigned
`damp_factor * spl_integral * diag(damp_diag)`. -/
def damp_matrix (max_degree nr_splines : ℕ) (t_step damp_factor : ℚ) (ddt : ℕ)
    (damp_diag : ℕ → ℚ) (newcot : ℕ → ℚ) (spl : ℤ → ℕ → ℚ) :
    (ℕ → ℕ → ℚ) × List ℚ :=
  if damp_factor = 0 then (fun _ _ => 0, [])
  else
    ((damp_pairs nr_splines).foldl
        (fun M p =>
          write_block (nm_total max_degree) p.1 p.2
            (fun r => damp_factor *
              integrator (p.1 : ℤ) (p.2 : ℤ) (nr_splines : ℤ) t_step ddt newcot spl *
              damp_diag r) M)
        (fun _ _ => 0),
      (List.range (nm_total max_degree)).map damp_diag)

/-- Embedding of `damp_matrix` together with failure propagation from the
`integrator` calls inside its assembly loops (damping.py line 59): when
damping is enabled and at least one spline pair is visited, an exception
inside the first `integrator` call aborts the assembly and no partial
result is returned; with `damp_factor == 0`, or with `nr_splines == 0`
(empty loops), no `integrator` call happens and the function returns
normally — there is no validation of `ddt` at entry. -/
def damp_matrix_checked (max_degree nr_splines : ℕ) (t_step damp_factor : ℚ)
    (ddt : ℕ) (damp_diag newcot : ℕ → ℚ) (spl : ℤ → ℕ → ℚ) :
    Option ((ℕ → ℕ → ℚ) × List ℚ) :=
  if damp_factor = 0 then
    some (damp_matrix max_degree nr_splines t_step damp_factor ddt damp_diag
      newcot spl)
  else if nr_splines = 0 then
    some (damp_matrix max_degree nr_splines t_step damp_factor ddt damp_diag
      newcot spl)
  else if nc_order ddt ≤ 0 then none
  else
    some (damp_matrix max_degree nr_splines t_step damp_factor ddt damp_diag
      newcot spl)

/-- The `t`-th entry of the internal `norm` sequence of `damp_norm`
(damping.py lines 152-155): `g_spl = spl @ coeffsp[t:t+4]` componentwise is
`g_spl[k] = Σ_s spl[s] * coeffsp[t+s][k]`, and
`norm[t] = damp_fac ⬝ g_spl**2`.  `nm` is the common length of the rows and
of `damp_fac`. -/
def norm_entry (nm : ℕ) (damp_fac : ℕ → ℚ) (spl : ℕ → ℚ)
    (coeffsp : List (ℕ → ℚ)) (t : ℕ) : ℚ :=
  ∑ k ∈ Finset.range nm,
    damp_fac k *
      (∑ s ∈ Finset.range (spl_degree + 1),
          spl s * coeffsp.getD (t + s) (fun _ => 0) k) ^ 2

/-- Embedding of `damp_norm(damp_fac, coeff, ddt, t_step)`
(damping.py lines 122-157).  `coeff` is the list of coefficient rows (each a
function on `Fin`-free indices `ℕ`, of conceptual length `nm`); `spl`
abstracts the external single-point stencil
`bsplines.derivatives(t_step, 1, ddt).flatten()` (`ddt` and `t_step` are its
arguments).  `spl_degree` zero rows are prepended, the `T` window products
are formed, the first `spl_degree` entries are dropped and the rest divided
by `t_step`. -/
def damp_norm (nm : ℕ) (damp_fac : ℕ → ℚ) (coeff : List (ℕ → ℚ)) (ddt : ℕ)
    (t_step : ℚ) (spl : ℕ → ℚ) : List ℚ :=
  let _ := ddt
  ((((List.range coeff.length).map
      (norm_entry nm damp_fac spl
        (List.replicate spl_degree (fun _ => (0 : ℚ)) ++ coeff))).drop
    spl_degree).map (fun x => x / t_step))

/-- Embedding of `damp_norm` together with its one failure point: the
padding width is read as `len(coeff[0])` (damping.py line 151), which raises
an `IndexError` when the coefficient series has no rows (`none` here).  On a
non-empty series the computation proceeds and returns `damp_norm`. -/
def damp_norm_checked (nm : ℕ) (damp_fac : ℕ → ℚ) (coeff : List (ℕ → ℚ))
    (ddt : ℕ) (t_step : ℚ) (spl : ℕ → ℚ) : Option (List ℚ) :=
  match coeff with
  | [] => none
  | _ :: _ => some (damp_norm nm damp_fac coeff ddt t_step spl)

/-! ## Helper lemmas about the block writes of `damp_matrix` -/

/-- When the block size is positive, an index pair inside the block of
`(s1, s2)` determines `s1` and `s2` by integer division: distinct pairs own
disjoint blocks. -/
lemma block_indices_eq {nm s1 s2 a b : ℕ}
    (h : s1 * nm ≤ a ∧ a < (s1 + 1) * nm ∧ s2 * nm ≤ b ∧ b < (s2 + 1) * nm) :
    s1 = a / nm ∧ s2 = b / nm :=
  ⟨(Nat.div_eq_of_lt_le h.1 h.2.1).symm,
   (Nat.div_eq_of_lt_le h.2.2.1 h.2.2.2).symm⟩

/-- Every index is strictly below the end of its own block row. -/
lemma lt_div_succ_mul (a b : ℕ) (hb : 0 < b) : a < (a / b + 1) * b := by
  have h1 := Nat.div_add_mod a b
  have h2 := Nat.mod_lt a hb
  calc a = b * (a / b) + a % b := h1.symm
    _ < b * (a / b) + b := by omega
    _ = (a / b + 1) * b := by ring

/-- Offset of an index inside its own block is its residue. -/
lemma sub_div_mul_eq_mod (a b : ℕ) : a - a / b * b = a % b := by
  rw [Nat.mod_def, Nat.mul_comm]

/-- Effect of a sequence of diagonal block writes on a single matrix entry:
the entry is rewritten exactly when the unique pair whose block contains it
occurs in the list. -/
lemma foldl_write_entry (nm : ℕ) (hnm : 0 < nm) (F : ℕ × ℕ → ℕ → ℚ)
    (l : List (ℕ × ℕ)) (M : ℕ → ℕ → ℚ) (a b : ℕ) :
    (l.foldl (fun M p => write_block nm p.1 p.2 (F p) M) M) a b =
      if (a / nm, b / nm) ∈ l then
        (if a % nm = b % nm then F (a / nm, b / nm) (a % nm) else 0)
      else M a b := by
  induction l generalizing M with
  | nil => simp
  | cons p rest ih =>
    rw [List.foldl_cons, ih]
    by_cases hmem : (a / nm, b / nm) ∈ rest
    · simp [hmem, List.mem_cons]
    · by_cases hp : p = (a / nm, b / nm)
      · subst hp
        have hin : a / nm * nm ≤ a ∧ a < (a / nm + 1) * nm ∧
            b / nm * nm ≤ b ∧ b < (b / nm + 1) * nm :=
          ⟨Nat.div_mul_le_self a nm, lt_div_succ_mul a nm hnm,
           Nat.div_mul_le_self b nm, lt_div_succ_mul b nm hnm⟩
        simp [hmem, List.mem_cons, write_block, hin.1, hin.2.1, hin.2.2.1,
          hin.2.2.2, sub_div_mul_eq_mod]
      · have hnotin : ¬((a / nm, b / nm) = p ∨ (a / nm, b / nm) ∈ rest) := by
          rintro (h | h)
          · exact hp h.symm
          · exact hmem h
        have hnoblock :
            ¬(p.1 * nm ≤ a ∧ a < (p.1 + 1) * nm ∧
              p.2 * nm ≤ b ∧ b < (p.2 + 1) * nm) := by
          intro h
          obtain ⟨h1, h2⟩ := block_indices_eq h
          exact hp (Prod.ext h1 h2)
        simp only [List.mem_cons, hnotin, if_false, write_block, hnoblock]
        simp [hmem]

/-- With an empty block (degenerate `nm_total = 0`, i.e. `max_degree = 0`)
no write ever changes the matrix. -/
lemma foldl_write_entry_nm_zero (F : ℕ × ℕ → ℕ → ℚ)
    (l : List (ℕ × ℕ)) (M : ℕ → ℕ → ℚ) :
    l.foldl (fun M p => write_block 0 p.1 p.2 (F p) M) M = M := by
  induction l generalizing M with
  | nil => rfl
  | cons p rest ih =>
    rw [List.foldl_cons]
    have hstep : write_block 0 p.1 p.2 (F p) M = M := by
      funext a b
      simp [write_block]
    rw [hstep]
    exact ih M

/-- Membership in the flattened assembly loops: exactly the in-range pairs at
band distance at most `spl_degree`. -/
lemma mem_damp_pairs {nr i j : ℕ} :
    (i, j) ∈ damp_pairs nr ↔
      i < nr ∧ j < nr ∧ i ≤ j + spl_degree ∧ j ≤ i + spl_degree := by
  unfold damp_pairs spl_degree
  simp only [List.mem_flatMap, List.mem_map, List.mem_range, List.mem_range'_1,
    Prod.mk.injEq]
  constructor
  · rintro ⟨s1, hs1, s2, ⟨hlo, hhi⟩, he1, he2⟩
    subst he1
    subst he2
    omega
  · intro h
    exact ⟨i, by omega, j, ⟨by omega, by omega⟩, rfl, rfl⟩

/-- Closed form of a single entry of the assembled damping matrix when
damping is enabled and the block size is positive. -/
lemma damp_matrix_entry (md nr : ℕ) (t c : ℚ) (ddt : ℕ) (d nwt : ℕ → ℚ)
    (tbl : ℤ → ℕ → ℚ) (hc : c ≠ 0) (hnm : 0 < nm_total md) (a b : ℕ) :
    (damp_matrix md nr t c ddt d nwt tbl).1 a b =
      if (a / nm_total md, b / nm_total md) ∈ damp_pairs nr then
        (if a % nm_total md = b % nm_total md then
          c * integrator ((a / nm_total md : ℕ) : ℤ) ((b / nm_total md : ℕ) : ℤ)
                (nr : ℤ) t ddt nwt tbl * d (a % nm_total md)
        else 0)
      else 0 := by
  unfold damp_matrix
  rw [if_neg hc]
  exact foldl_write_entry (nm_total md) hnm
    (fun p => fun r =>
      c * integrator (p.1 : ℤ) (p.2 : ℤ) (nr : ℤ) t ddt nwt tbl * d r)
    (damp_pairs nr) (fun _ _ => 0) a b

/-- With `max_degree = 0` (empty blocks) the assembled matrix stays zero. -/
lemma damp_matrix_entry_nm_zero (md nr : ℕ) (t c : ℚ) (ddt : ℕ)
    (d nwt : ℕ → ℚ) (tbl : ℤ → ℕ → ℚ) (hnm : nm_total md = 0) (a b : ℕ) :
    (damp_matrix md nr t c ddt d nwt tbl).1 a b = 0 := by
  unfold damp_matrix
  by_cases hc : c = 0
  · rw [if_pos hc]
  · rw [if_neg hc]
    simp only [hnm]
    rw [foldl_write_entry_nm_zero]

/-- The overlap integral is symmetric in its two spline arguments: the
integration bounds are symmetric, and the sampled product commutes. -/
lemma integrator_symm (s1 s2 nr : ℤ) (t : ℚ) (ddt : ℕ) (nwt : ℕ → ℚ)
    (tbl : ℤ → ℕ → ℚ) :
    integrator s1 s2 nr t ddt nwt tbl = integrator s2 s1 nr t ddt nwt tbl := by
  unfold integrator intLow intHigh
  rw [max_comm s1 s2, min_comm (s1 + (spl_degree : ℤ)) (s2 + (spl_degree : ℤ))]
  refine Finset.sum_congr rfl fun x _ => ?_
  congr 1
  refine Finset.sum_congr rfl fun stp _ => ?_
  ring

/-! ## Claim theorems -/

/-- C1: for all spline indices `spl1, spl2` in `[0, nr_splines)`, the overlap
is accumulated only over the unit intervals from `low = max(spl1, spl2, 3)`
to `high = min(spl1 + 3, spl2 + 3, nr_splines - 1)`: `integrator` returns 0
when `low > high`, and in particular it returns 0 (rather than failing) for
every pair with `|spl1 - spl2| > 3`. -/
theorem integrator_out_of_band_zero (spl1 spl2 nr : ℤ) (t_step : ℚ) (ddt : ℕ)
    (newcot : ℕ → ℚ) (tbl : ℤ → ℕ → ℚ)
    (h1 : 0 ≤ spl1) (h1' : spl1 < nr) (h2 : 0 ≤ spl2) (h2' : spl2 < nr) :
    (intHigh spl1 spl2 nr < intLow spl1 spl2 →
      integrator spl1 spl2 nr t_step ddt newcot tbl = 0) ∧
    (3 < |spl1 - spl2| →
      integrator spl1 spl2 nr t_step ddt newcot tbl = 0) := by
  have hz : intHigh spl1 spl2 nr < intLow spl1 spl2 →
      integrator spl1 spl2 nr t_step ddt newcot tbl = 0 := by
    intro h
    unfold integrator
    rw [Finset.Icc_eq_empty (not_le.mpr h)]
    simp
  refine ⟨hz, fun hband => hz ?_⟩
  unfold intLow intHigh spl_degree
  rcases lt_abs.mp hband with h | h <;> omega

/-- Witness for `integrator_out_of_band_zero` at `spl1 = 0`, `spl2 = 4`,
`nr_splines = 6`. -/
theorem integrator_out_of_band_zero_witness :
    (intHigh 0 4 6 < intLow 0 4 →
      integrator 0 4 6 1 0 (fun _ => 1) (fun _ _ => 1) = 0) ∧
    (3 < |(0 : ℤ) - 4| →
      integrator 0 4 6 1 0 (fun _ => 1) (fun _ _ => 1) = 0) :=
  integrator_out_of_band_zero 0 4 6 1 0 (fun _ => 1) (fun _ _ => 1)
    (by norm_num) (by norm_num) (by norm_num) (by norm_num)

/-- C9: inside the quadrature loops every access to the sampled derivative
table is in bounds: for in-range spline indices the row offsets `t - spl1`,
`t - spl2` lie in `[0, 3]`, and consequently the value of `integrator`
depends only on the `4 × (nc_order + 1)` region of the table (two tables
agreeing there give the same result — evaluation is total). -/
theorem integrator_access_in_bounds (spl1 spl2 nr : ℤ) (t_step : ℚ)
    (ddt : ℕ) (newcot : ℕ → ℚ)
    (h1 : 0 ≤ spl1) (h1' : spl1 < nr) (h2 : 0 ≤ spl2) (h2' : spl2 < nr)
    (hddt : ddt ≤ 2) :
    (∀ t ∈ Finset.Icc (intLow spl1 spl2) (intHigh spl1 spl2 nr),
        0 ≤ t - spl1 ∧ t - spl1 ≤ 3 ∧ 0 ≤ t - spl2 ∧ t - spl2 ≤ 3) ∧
    (∀ tbl tbl' : ℤ → ℕ → ℚ,
        (∀ r s, 0 ≤ r → r ≤ 3 → s ≤ (nc_order ddt).toNat → tbl r s = tbl' r s) →
        integrator spl1 spl2 nr t_step ddt newcot tbl =
          integrator spl1 spl2 nr t_step ddt newcot tbl') := by
  have hbound : ∀ t ∈ Finset.Icc (intLow spl1 spl2) (intHigh spl1 spl2 nr),
      0 ≤ t - spl1 ∧ t - spl1 ≤ 3 ∧ 0 ≤ t - spl2 ∧ t - spl2 ≤ 3 := by
    intro t ht
    rw [Finset.mem_Icc] at ht
    unfold intLow intHigh spl_degree at ht
    omega
  refine ⟨hbound, fun tbl tbl' hagree => ?_⟩
  unfold integrator
  refine Finset.sum_congr rfl fun t ht => ?_
  congr 1
  refine Finset.sum_congr rfl fun stp hstp => ?_
  obtain ⟨ha, hb, hc', hd⟩ := hbound t ht
  rw [Finset.mem_range] at hstp
  have hstp' : stp ≤ (nc_order ddt).toNat := by
    unfold nc_order spl_degree at *
    omega
  rw [hagree _ _ ha hb hstp', hagree _ _ hc' hd hstp']

/-- Witness for `integrator_access_in_bounds` at `spl1 = 0`, `spl2 = 1`,
`nr_splines = 5`, `ddt = 0`. -/
theorem integrator_access_in_bounds_witness :
    (∀ t ∈ Finset.Icc (intLow 0 1) (intHigh 0 1 5),
        0 ≤ t - 0 ∧ t - 0 ≤ 3 ∧ 0 ≤ t - 1 ∧ t - 1 ≤ 3) ∧
    (∀ tbl tbl' : ℤ → ℕ → ℚ,
        (∀ r s, 0 ≤ r → r ≤ 3 → s ≤ (nc_order 0).toNat → tbl r s = tbl' r s) →
        integrator 0 1 5 1 0 (fun _ => 1) tbl =
          integrator 0 1 5 1 0 (fun _ => 1) tbl') :=
  integrator_access_in_bounds 0 1 5 1 0 (fun _ => 1)
    (by norm_num) (by norm_num) (by norm_num) (by norm_num) (by norm_num)

/-- C6 (amended): for every derivative order outside `[0, 3]` the
quadrature setup fails before any interval is integrated: `integrator`
raises inside the external `newton_cotes` call (whose order
`2 * (3 - ddt)` is negative) and returns no partial result, and
`damp_matrix` fails the same way by propagation from its first `integrator`
call whenever damping is enabled (`damp_factor ≠ 0`) and at least one
spline pair exists (`nr_splines ≥ 1`).  The failure is the quadrature
library's own error, not a module-level `InvalidParameter` raised by
validation at entry: no such validation exists (see the counterexample
`damp_matrix_invalid_ddt_no_entry_validation`). -/
theorem integrator_invalid_ddt_fails (ddt : ℕ) (spl1 spl2 nr : ℤ)
    (t_step : ℚ) (newcot : ℕ → ℚ) (tbl : ℤ → ℕ → ℚ) (md nrs : ℕ) (t c : ℚ)
    (d nwt : ℕ → ℚ) (tbl2 : ℤ → ℕ → ℚ)
    (hddt : 3 < ddt) (hc : c ≠ 0) (hnr : 1 ≤ nrs) :
    integrator_checked spl1 spl2 nr t_step ddt newcot tbl = none ∧
    damp_matrix_checked md nrs t c ddt d nwt tbl2 = none := by
  have hnc : nc_order ddt ≤ 0 := by
    unfold nc_order spl_degree
    omega
  constructor
  · unfold integrator_checked
    rw [if_pos hnc]
  · unfold damp_matrix_checked
    rw [if_neg hc, if_neg (show ¬nrs = 0 by omega), if_pos hnc]

/-- Witness for `integrator_invalid_ddt_fails` at `ddt = 4`. -/
theorem integrator_invalid_ddt_fails_witness :
    integrator_checked 0 0 5 1 4 (fun _ => 1) (fun _ _ => 1) = none ∧
    damp_matrix_checked 1 5 1 1 4 (fun _ => 1) (fun _ => 1) (fun _ _ => 1) =
      none :=
  integrator_invalid_ddt_fails 4 0 0 5 1 (fun _ => 1) (fun _ _ => 1) 1 5 1 1
    (fun _ => 1) (fun _ => 1) (fun _ _ => 1) (by norm_num) (by norm_num)
    (by norm_num)

/-- C6 counterexample to the claim as stated: there is no validation at the
entry of `damp_matrix`.  With `damp_factor = 0` and the invalid derivative
order `ddt = 7` the call returns its zero-matrix sentinel successfully — it
does not fail with an error for this derivative order outside `[0, 3]`. -/
theorem damp_matrix_invalid_ddt_no_entry_validation :
    damp_matrix_checked 1 5 1 0 7 (fun _ => 1) (fun _ => 1) (fun _ _ => 1) =
      some (damp_matrix 1 5 1 0 7 (fun _ => 1) (fun _ => 1) (fun _ _ => 1)) := by
  unfold damp_matrix_checked
  rw [if_pos rfl]

/-- C2: the matrix returned by `damp_matrix` is symmetric,
`matrix[a, b] = matrix[b, a]` for every pair of global indices, for every
valid input (`nr_splines ≥ 1`, `ddt ∈ {0, 1, 2}`, any damping factor,
degree, time step and external weight/sample inputs). -/
theorem damp_matrix_symmetric (md nr : ℕ) (t c : ℚ) (ddt : ℕ)
    (d nwt : ℕ → ℚ) (tbl : ℤ → ℕ → ℚ)
    (hnr : 1 ≤ nr) (hddt : ddt ≤ 2) (a b : ℕ) :
    (damp_matrix md nr t c ddt d nwt tbl).1 a b =
      (damp_matrix md nr t c ddt d nwt tbl).1 b a := by
  by_cases hc : c = 0
  · subst hc
    unfold damp_matrix
    simp
  by_cases hnm : nm_total md = 0
  · rw [damp_matrix_entry_nm_zero md nr t c ddt d nwt tbl hnm,
        damp_matrix_entry_nm_zero md nr t c ddt d nwt tbl hnm]
  have hpos : 0 < nm_total md := Nat.pos_of_ne_zero hnm
  rw [damp_matrix_entry md nr t c ddt d nwt tbl hc hpos a b,
      damp_matrix_entry md nr t c ddt d nwt tbl hc hpos b a]
  by_cases hmem : (a / nm_total md, b / nm_total md) ∈ damp_pairs nr
  · have hmem' : (b / nm_total md, a / nm_total md) ∈ damp_pairs nr := by
      rw [mem_damp_pairs] at hmem ⊢
      omega
    rw [if_pos hmem, if_pos hmem']
    by_cases hmod : a % nm_total md = b % nm_total md
    · rw [if_pos hmod, if_pos hmod.symm, integrator_symm, hmod]
    · rw [if_neg hmod, if_neg fun h => hmod h.symm]
  · have hmem' : (b / nm_total md, a / nm_total md) ∉ damp_pairs nr := by
      rw [mem_damp_pairs] at hmem ⊢
      omega
    rw [if_neg hmem, if_neg hmem']

/-- Witness for `damp_matrix_symmetric` at `max_degree = 1`,
`nr_splines = 5`, entry `(0, 4)`. -/
theorem damp_matrix_symmetric_witness :
    (damp_matrix 1 5 1 1 0 (fun _ => 1) (fun _ => 1) (fun _ _ => 1)).1 0 4 =
      (damp_matrix 1 5 1 1 0 (fun _ => 1) (fun _ => 1) (fun _ _ => 1)).1 4 0 :=
  damp_matrix_symmetric 1 5 1 1 0 (fun _ => 1) (fun _ => 1) (fun _ _ => 1)
    (by norm_num) (by norm_num) 0 4

/-- C3: every `nm_total × nm_total` block `(i, j)` of the returned matrix
with `|i - j| > 3` is exactly zero: the assembly loop writes only banded
blocks and the matrix is pre-initialized to zero. -/
theorem damp_matrix_banded (md nr : ℕ) (t c : ℚ) (ddt : ℕ)
    (d nwt : ℕ → ℚ) (tbl : ℤ → ℕ → ℚ) (i j r s : ℕ)
    (hi : i < nr) (hj : j < nr) (hband : 3 < |(i : ℤ) - (j : ℤ)|)
    (hr : r < nm_total md) (hs : s < nm_total md) :
    (damp_matrix md nr t c ddt d nwt tbl).1
      (i * nm_total md + r) (j * nm_total md + s) = 0 := by
  by_cases hc : c = 0
  · unfold damp_matrix
    rw [if_pos hc]
  have hpos : 0 < nm_total md := lt_of_le_of_lt (Nat.zero_le r) hr
  rw [damp_matrix_entry md nr t c ddt d nwt tbl hc hpos]
  have hdiv1 : (i * nm_total md + r) / nm_total md = i :=
    Nat.div_eq_of_lt_le (Nat.le_add_right _ _)
      (by rw [Nat.add_mul, Nat.one_mul]; exact Nat.add_lt_add_left hr _)
  have hdiv2 : (j * nm_total md + s) / nm_total md = j :=
    Nat.div_eq_of_lt_le (Nat.le_add_right _ _)
      (by rw [Nat.add_mul, Nat.one_mul]; exact Nat.add_lt_add_left hs _)
  rw [hdiv1, hdiv2]
  have hnotmem : (i, j) ∉ damp_pairs nr := by
    rw [mem_damp_pairs]
    unfold spl_degree
    rcases lt_abs.mp hband with h | h <;> · intro hcon; omega
  rw [if_neg hnotmem]

/-- Witness for `damp_matrix_banded` at `max_degree = 1` (`nm_total = 3`),
`nr_splines = 5`, block `(0, 4)`, offset `(0, 0)`. -/
theorem damp_matrix_banded_witness :
    (damp_matrix 1 5 1 1 0 (fun _ => 1) (fun _ => 1) (fun _ _ => 1)).1
      (0 * nm_total 1 + 0) (4 * nm_total 1 + 0) = 0 :=
  damp_matrix_banded 1 5 1 1 0 (fun _ => 1) (fun _ => 1) (fun _ _ => 1)
    0 4 0 0 (by norm_num) (by norm_num) (by norm_num)
    (by norm_num [nm_total]) (by norm_num [nm_total])

/-- C4: with `damp_factor = 0` damping is disabled: for every degree, spline
count, time step, derivative order and external inputs, `damp_matrix`
returns the all-zero matrix together with the empty weight vector. -/
theorem damp_matrix_zero_factor (md nr : ℕ) (t : ℚ) (ddt : ℕ)
    (d nwt : ℕ → ℚ) (tbl : ℤ → ℕ → ℚ) :
    (∀ a b, (damp_matrix md nr t 0 ddt d nwt tbl).1 a b = 0) ∧
      (damp_matrix md nr t 0 ddt d nwt tbl).2 = [] := by
  unfold damp_matrix
  simp

/-- C5: linearity in the damping factor: for `c ≠ 0` the matrix built with
`damp_factor = c` is, entry by entry, `c` times the matrix built with
`damp_factor = 1` (all other parameters equal). -/
theorem damp_matrix_linear_in_factor (md nr : ℕ) (t c : ℚ) (ddt : ℕ)
    (d nwt : ℕ → ℚ) (tbl : ℤ → ℕ → ℚ) (hc : c ≠ 0) (a b : ℕ) :
    (damp_matrix md nr t c ddt d nwt tbl).1 a b =
      c * (damp_matrix md nr t 1 ddt d nwt tbl).1 a b := by
  by_cases hnm : nm_total md = 0
  · rw [damp_matrix_entry_nm_zero md nr t c ddt d nwt tbl hnm,
        damp_matrix_entry_nm_zero md nr t 1 ddt d nwt tbl hnm, mul_zero]
  have hpos : 0 < nm_total md := Nat.pos_of_ne_zero hnm
  rw [damp_matrix_entry md nr t c ddt d nwt tbl hc hpos a b,
      damp_matrix_entry md nr t 1 ddt d nwt tbl one_ne_zero hpos a b]
  split_ifs <;> ring

/-- Witness for `damp_matrix_linear_in_factor` at `c = 2`,
`max_degree = 1`, `nr_splines = 5`, entry `(0, 0)`. -/
theorem damp_matrix_linear_in_factor_witness :
    (damp_matrix 1 5 1 2 0 (fun _ => 1) (fun _ => 1) (fun _ _ => 1)).1 0 0 =
      2 * (damp_matrix 1 5 1 1 0 (fun _ => 1) (fun _ => 1) (fun _ _ => 1)).1 0 0 :=
  damp_matrix_linear_in_factor 1 5 1 2 0 (fun _ => 1) (fun _ => 1)
    (fun _ _ => 1) (by norm_num) 0 0

/-- The internal norm value over all-zero coefficient rows vanishes. -/
lemma norm_entry_zero_rows (nm : ℕ) (damp_fac : ℕ → ℚ) (spl : ℕ → ℚ)
    (m t : ℕ) :
    norm_entry nm damp_fac spl (List.replicate m (fun _ : ℕ => (0 : ℚ))) t = 0 := by
  unfold norm_entry
  have hz : ∀ j, (List.replicate m (fun _ : ℕ => (0 : ℚ))).getD j (fun _ => 0) =
      (fun _ : ℕ => (0 : ℚ)) := by
    intro j
    rw [List.getD_eq_getElem?_getD, List.getElem?_replicate]
    rcases lt_or_ge j m with h | h
    · rw [if_pos h]
      rfl
    · rw [if_neg (by omega)]
      rfl
  simp [hz]

/-- Computation proceeds on any non-empty coefficient series. -/
lemma damp_norm_checked_of_ne_nil (nm : ℕ) (damp_fac : ℕ → ℚ)
    (coeff : List (ℕ → ℚ)) (ddt : ℕ) (t_step : ℚ) (spl : ℕ → ℚ)
    (h : coeff ≠ []) :
    damp_norm_checked nm damp_fac coeff ddt t_step spl =
      some (damp_norm nm damp_fac coeff ddt t_step spl) := by
  cases coeff with
  | nil => exact absurd rfl h
  | cons c cs => rfl

/-- C7: for non-negative weights, at least 3 coefficient rows, a supported
derivative order and a positive time step, `damp_norm` evaluates without
error and returns exactly `T - 3` values: position `i` holds the
`(i + 3)`-rd entry of the internal `T`-length sequence divided by `t_step`
(the first 3 padding artifacts are discarded, order preserved), and every
returned value is non-negative. -/
theorem damp_norm_contract (nm : ℕ) (damp_fac : ℕ → ℚ) (coeff : List (ℕ → ℚ))
    (ddt : ℕ) (t_step : ℚ) (spl : ℕ → ℚ)
    (hfac : ∀ k, 0 ≤ damp_fac k) (hT : 3 ≤ coeff.length) (hddt : ddt ≤ 2)
    (hstep : 0 < t_step) :
    damp_norm_checked nm damp_fac coeff ddt t_step spl =
      some (damp_norm nm damp_fac coeff ddt t_step spl) ∧
    (damp_norm nm damp_fac coeff ddt t_step spl).length = coeff.length - 3 ∧
    ∀ i < coeff.length - 3,
      (damp_norm nm damp_fac coeff ddt t_step spl).getD i 0 =
        norm_entry nm damp_fac spl
          (List.replicate spl_degree (fun _ => (0 : ℚ)) ++ coeff) (i + 3) /
          t_step ∧
      0 ≤ (damp_norm nm damp_fac coeff ddt t_step spl).getD i 0 := by
  have hchk : damp_norm_checked nm damp_fac coeff ddt t_step spl =
      some (damp_norm nm damp_fac coeff ddt t_step spl) :=
    damp_norm_checked_of_ne_nil nm damp_fac coeff ddt t_step spl
      (by intro h; rw [h] at hT; simp at hT)
  have hlen : (damp_norm nm damp_fac coeff ddt t_step spl).length =
      coeff.length - 3 := by
    unfold damp_norm spl_degree
    simp
  refine ⟨hchk, hlen, fun i hi => ?_⟩
  have hgd : (damp_norm nm damp_fac coeff ddt t_step spl).getD i 0 =
      norm_entry nm damp_fac spl
        (List.replicate spl_degree (fun _ => (0 : ℚ)) ++ coeff) (i + 3) /
        t_step := by
    unfold damp_norm
    rw [List.getD_eq_getElem?_getD, List.getElem?_map, List.getElem?_drop,
      List.getElem?_map,
      List.getElem?_range (show spl_degree + i < coeff.length by
        unfold spl_degree
        omega)]
    simp only [Option.map_some', Option.getD_some]
    rw [show spl_degree + i = i + 3 from by unfold spl_degree; omega]
  refine ⟨hgd, ?_⟩
  rw [hgd]
  refine div_nonneg ?_ hstep.le
  exact Finset.sum_nonneg fun k _ => mul_nonneg (hfac k) (sq_nonneg _)

/-- Witness for `damp_norm_contract` with 4 constant rows. -/
theorem damp_norm_contract_witness :
    damp_norm_checked 1 (fun _ => 1) (List.replicate 4 (fun _ => 1)) 0 1
        (fun _ => 1) =
      some (damp_norm 1 (fun _ => 1) (List.replicate 4 (fun _ => 1)) 0 1
        (fun _ => 1)) ∧
    (damp_norm 1 (fun _ => 1) (List.replicate 4 (fun _ => 1)) 0 1
        (fun _ => 1)).length = (List.replicate 4 (fun _ : ℕ => (1 : ℚ))).length - 3 ∧
    ∀ i < (List.replicate 4 (fun _ : ℕ => (1 : ℚ))).length - 3,
      (damp_norm 1 (fun _ => 1) (List.replicate 4 (fun _ => 1)) 0 1
          (fun _ => 1)).getD i 0 =
        norm_entry 1 (fun _ => 1) (fun _ => 1)
          (List.replicate spl_degree (fun _ => (0 : ℚ)) ++
            List.replicate 4 (fun _ => 1)) (i + 3) / 1 ∧
      0 ≤ (damp_norm 1 (fun _ => 1) (List.replicate 4 (fun _ => 1)) 0 1
          (fun _ => 1)).getD i 0 :=
  damp_norm_contract 1 (fun _ => 1) (List.replicate 4 (fun _ => 1)) 0 1
    (fun _ => 1) (fun _ => by norm_num) (by simp) (by norm_num) (by norm_num)

/-- On an all-zero coefficient series of `T` rows the (unchecked) norm
computation yields `T - 3` values, all zero. -/
lemma damp_norm_zero_input_unchecked (nm T : ℕ) (damp_fac : ℕ → ℚ) (ddt : ℕ)
    (t_step : ℚ) (spl : ℕ → ℚ) (hddt : ddt ≤ 2) (hstep : t_step ≠ 0) :
    (damp_norm nm damp_fac (List.replicate T (fun _ => 0)) ddt t_step
        spl).length = T - 3 ∧
    ∀ i, (damp_norm nm damp_fac (List.replicate T (fun _ => 0)) ddt t_step
        spl).getD i 0 = 0 := by
  have hrep : List.replicate spl_degree (fun _ : ℕ => (0 : ℚ)) ++
      List.replicate T (fun _ : ℕ => (0 : ℚ)) =
      List.replicate (spl_degree + T) (fun _ : ℕ => (0 : ℚ)) :=
    (List.replicate_add spl_degree T _).symm
  have hlen : (damp_norm nm damp_fac (List.replicate T (fun _ => 0)) ddt
      t_step spl).length = T - 3 := by
    unfold damp_norm spl_degree
    simp
  refine ⟨hlen, fun i => ?_⟩
  have hall : ∀ x ∈ damp_norm nm damp_fac (List.replicate T (fun _ => 0)) ddt
      t_step spl, x = 0 := by
    intro x hx
    unfold damp_norm at hx
    simp only [List.mem_map] at hx
    obtain ⟨y, hy, rfl⟩ := hx
    have hy' := List.mem_of_mem_drop hy
    simp only [List.mem_map] at hy'
    obtain ⟨t, _, rfl⟩ := hy'
    rw [hrep, norm_entry_zero_rows]
    simp
  rcases lt_or_ge i ((damp_norm nm damp_fac (List.replicate T (fun _ => 0))
      ddt t_step spl).length) with h | h
  · rw [List.getD_eq_getElem _ 0 h]
    exact hall _ (List.getElem_mem h)
  · rw [List.getD_eq_getElem?_getD, List.getElem?_eq_none (by omega),
      Option.getD_none]

/-- C8 (amended): for `T ≥ 1`, an all-zero coefficient series of `T` rows is
processed without error and produces an output of length `T - 3` in which
every entry is zero.  (At `T = 0` the code fails while reading the padding
width `len(coeff[0])`; see `damp_norm_zero_input_empty_fails`.) -/
theorem damp_norm_zero_input (nm T : ℕ) (damp_fac : ℕ → ℚ) (ddt : ℕ)
    (t_step : ℚ) (spl : ℕ → ℚ) (hT : 1 ≤ T) (hddt : ddt ≤ 2)
    (hstep : t_step ≠ 0) :
    ∃ out, damp_norm_checked nm damp_fac (List.replicate T (fun _ => 0)) ddt
        t_step spl = some out ∧
      out.length = T - 3 ∧ ∀ i, out.getD i 0 = 0 := by
  obtain ⟨hlen, hall⟩ :=
    damp_norm_zero_input_unchecked nm T damp_fac ddt t_step spl hddt hstep
  refine ⟨damp_norm nm damp_fac (List.replicate T (fun _ => 0)) ddt t_step spl,
    ?_, hlen, hall⟩
  exact damp_norm_checked_of_ne_nil nm damp_fac _ ddt t_step spl
    (by simp [List.replicate]; omega)

/-- C8 counterexample: at `T = 0` rows (claim places no lower bound on `T`)
the code does not produce an output sequence at all: reading the padding
width `len(coeff[0])` fails on the empty series. -/
theorem damp_norm_zero_input_empty_fails :
    damp_norm_checked 2 (fun _ => 1)
      (List.replicate 0 (fun _ => (0 : ℚ))) 0 1 (fun _ => 1) = none := rfl

/-- Witness for `damp_norm_zero_input` with `T = 5` rows. -/
theorem damp_norm_zero_input_witness :
    ∃ out, damp_norm_checked 2 (fun _ => 1) (List.replicate 5 (fun _ => 0)) 0 1
        (fun _ => 1) = some out ∧
      out.length = 5 - 3 ∧ ∀ i, out.getD i 0 = 0 :=
  damp_norm_zero_input 2 5 (fun _ => 1) 0 1 (fun _ => 1)
    (by norm_num) (by norm_num) (by norm_num)

/-- For a series of at most 3 rows the slice `norm[3:]` of the (unchecked)
computation is empty. -/
lemma damp_norm_short_unchecked (nm : ℕ) (damp_fac : ℕ → ℚ)
    (coeff : List (ℕ → ℚ)) (ddt : ℕ) (t_step : ℚ) (spl : ℕ → ℚ)
    (hT : coeff.length ≤ 3) :
    damp_norm nm damp_fac coeff ddt t_step spl = [] := by
  unfold damp_norm
  rw [List.drop_eq_nil_of_le (by simp [spl_degree]; omega)]
  rfl

/-- C10 (amended): for a coefficient series with `1 ≤ T ≤ 3` rows the padded
series provides full 4-row windows for every inner step, `damp_norm`
evaluates without error, and the final slice `norm[3:]` is empty, so the
empty sequence is returned (the output length `T - spline_degree` never goes
negative).  At `T = 0`, however, the code fails while reading the padding
width `len(coeff[0])` instead of returning the empty sequence; see
`damp_norm_empty_series_fails`. -/
theorem damp_norm_short_series_empty (nm : ℕ) (damp_fac : ℕ → ℚ)
    (coeff : List (ℕ → ℚ)) (ddt : ℕ) (t_step : ℚ) (spl : ℕ → ℚ)
    (hne : coeff ≠ []) (hT : coeff.length ≤ 3) :
    damp_norm_checked nm damp_fac coeff ddt t_step spl = some [] := by
  rw [damp_norm_checked_of_ne_nil nm damp_fac coeff ddt t_step spl hne,
    damp_norm_short_unchecked nm damp_fac coeff ddt t_step spl hT]

/-- C10 counterexample: on the empty coefficient series (`T = 0`, which the
claim includes) `damp_norm` does not return an empty sequence: evaluating
the padding width `len(coeff[0])` fails on a series with no rows. -/
theorem damp_norm_empty_series_fails :
    damp_norm_checked 3 (fun _ => 1) [] 0 1 (fun _ => 1) = none := rfl

/-- Witness for `damp_norm_short_series_empty` at a single-row series. -/
theorem damp_norm_short_series_empty_witness :
    damp_norm_checked 3 (fun _ => 1) [fun _ => 1] 0 1 (fun _ => 1) =
      some [] :=
  damp_norm_short_series_empty 3 (fun _ => 1) [fun _ => 1] 0 1 (fun _ => 1)
    (by simp) (by simp)
